import Mathlib

/-!
Verification of the LogNorm log-normalisation pipeline.

Rust strings are modelled as `List Char`; the per-format line parsers,
the batch partitioner, the dispatch function and the writer framing are
translated from the repository sources (`src/main.rs`, `src/output.rs`,
`src/parsers/*.rs`).  Fallible Rust functions returning `Option`/`Result`
become `Option`/`Except`.
-/

namespace LogNorm

/-- The canonical structured record, from `src/config.rs`: five optional
string fields. -/
structure LogEntry where
  timestamp : Option (List Char)
  host : Option (List Char)
  service : Option (List Char)
  level : Option (List Char)
  message : Option (List Char)
deriving DecidableEq, Repr

/-! ## String helpers (models of Rust `str` methods) -/

/-- Model of Rust `str::contains(&str)`: `pat` occurs as a contiguous
substring of the second argument. -/
def containsSub (pat : List Char) : List Char → Bool
  | [] => pat.isEmpty
  | c :: rest => pat.isPrefixOf (c :: rest) || containsSub pat rest

/-- Model of Rust `str::to_lowercase` (exact on the ASCII data the parsers
handle). -/
def lowerAll (s : List Char) : List Char := s.map Char.toLower

/-- Model of Rust `u8::to_ascii_lowercase` / `char::to_ascii_lowercase`:
only the ASCII uppercase range is mapped. -/
def asciiLower (c : Char) : Char :=
  if 'A' ≤ c && c ≤ 'Z' then Char.ofNat (c.toNat + 32) else c

/-- Model of Rust `str::to_ascii_lowercase`. -/
def lowerAsciiAll (s : List Char) : List Char := s.map asciiLower

/-- Model of `slice::eq_ignore_ascii_case`. -/
def eqIgnoreAsciiCase (a b : List Char) : Bool :=
  a.length == b.length && (List.zip a b).all fun p => asciiLower p.1 == asciiLower p.2

/-- Model of the scanning idiom `while i < len && !p(bytes[i]) { i += 1 }`
starting from index `i`: the index of the first position at or after `i`
satisfying `p`, or the length of `s` when there is none. -/
def findFrom (p : Char → Bool) (s : List Char) (i : Nat) : Nat :=
  i + List.findIdx p (s.drop i)

/-- Model of the Rust slice `&s[a..b]`. -/
def slice (s : List Char) (a b : Nat) : List Char := (s.take b).drop a

/-! ## Line splitting shared by every parser (`parse_chunk` skeleton)

Each of the four parser modules repeats the same loop: iterate over the
newline positions of the chunk, take each complete line, and finally take
the trailing segment after the last newline when it is non-empty. -/

/-- Split a buffer at every newline byte, keeping all segments (including
a final empty segment when the buffer ends in a newline). -/
def splitNl : List Char → List (List Char)
  | [] => [[]]
  | c :: cs =>
    match splitNl cs with
    | [] => [[]]
    | s :: ss => if c = '\n' then [] :: s :: ss else (c :: s) :: ss

/-- The lines a `parse_chunk` loop visits: every complete line, plus the
trailing unterminated segment when non-empty. -/
def chunkLines (bytes : List Char) : List (List Char) :=
  let segs := splitNl bytes
  if segs.getLast? = some [] then segs.dropLast else segs

/-- The shared `parse_chunk` skeleton of `syslog.rs`, `nginx.rs`,
`journalctl.rs` and `python_web.rs`: scan line by line, skip lines shorter
than the format's `MIN_LINE_LEN`, apply the per-format `parse_line`, and
collect the successfully parsed entries in order. -/
def parseChunk (minLen : Nat) (parseLine : List Char → Option LogEntry)
    (bytes : List Char) : List LogEntry :=
  (chunkLines bytes).filterMap fun line =>
    if minLen ≤ line.length then parseLine line else none

/-! ## syslog parser (`src/parsers/syslog.rs`) -/

/-- The level-detection loop of `syslog.rs::parse_line` (lines 139-158):
iterate over the message bytes; on an `E`/`e` byte check the lowercased
message for `error` or `fail` and break with `error`; on a `W`/`w` byte
check for `warn` and record `warn` without breaking. -/
def syslogLevelLoop (msg : List Char) : List Char → List Char → List Char
  | [], lvl => lvl
  | b :: rest, lvl =>
    if b == 'E' || b == 'e' then
      if containsSub ("error".toList) (lowerAll msg)
          || containsSub ("fail".toList) (lowerAll msg) then
        "error".toList
      else syslogLevelLoop msg rest lvl
    else if b == 'W' || b == 'w' then
      if containsSub ("warn".toList) (lowerAll msg) then
        syslogLevelLoop msg rest ("warn".toList)
      else syslogLevelLoop msg rest lvl
    else syslogLevelLoop msg rest lvl

/-- Level detection as invoked by `syslog.rs::parse_line`: the loop runs
over the whole message with initial level `info`. -/
def syslogDetectLevel (msg : List Char) : List Char :=
  syslogLevelLoop msg msg ("info".toList)

/-- Field extraction of `syslog.rs::parse_line`: optional `<priority>`
prefix, a fixed 15-byte timestamp, the space-terminated host token, the
colon-terminated app token, then the remaining message. -/
def syslogFields (line : List Char) :
    Option (List Char × List Char × List Char × List Char) :=
  let len := line.length
  let i0 : Nat :=
    if line.head? = some '<' then findFrom (fun c => c == '>') line 0 + 1 else 0
  if i0 + 15 > len then none
  else
    let timestamp := slice line i0 (i0 + 15)
    let i1 := i0 + 16
    let hostEnd := findFrom (fun c => c == ' ') line i1
    if hostEnd ≥ len then none
    else
      let hostname := slice line i1 hostEnd
      let i2 := hostEnd + 1
      let appEnd := findFrom (fun c => c == ':') line i2
      if appEnd ≥ len then none
      else
        let app := slice line i2 appEnd
        let i3 := appEnd + 2
        let message := if i3 < len then line.drop i3 else []
        some (timestamp, hostname, app, message)

/-- `syslog.rs::parse_line`: on success the entry carries the timestamp,
the host, the constant service `syslog`, the detected level,
and the message prefixed by the app token and a colon. -/
def syslogParseLine (line : List Char) : Option LogEntry :=
  (syslogFields line).map fun f =>
    { timestamp := some f.1
      host := some f.2.1
      service := some ("syslog".toList)
      level := some (syslogDetectLevel f.2.2.2)
      message := some (f.2.2.1 ++ ": ".toList ++ f.2.2.2) }

/-- `syslog.rs::parse_syslog` (single-threaded path; the feature-gated
parallel path concatenates the same per-line results over newline-aligned
sub-chunks). `MIN_LINE_LEN = 15`. -/
def parse_syslog (input : List Char) : List LogEntry :=
  parseChunk 15 syslogParseLine input

/-! ## journalctl parser (`src/parsers/journalctl.rs`) -/

/-- Model of `msg_bytes.windows(n).any(|w| w.eq_ignore_ascii_case(pat))`:
some length-`pat.length` window of the list matches `pat` up to ASCII
case. -/
def hasWindowCI (pat : List Char) : List Char → Bool
  | [] => false
  | c :: rest =>
    eqIgnoreAsciiCase ((c :: rest).take pat.length) pat || hasWindowCI pat rest

/-- The level loop of `journalctl.rs::parse_line` (lines 131-166): each
byte is OR-ed with `0x20` and compared against `e` (code 101), `f` (102)
and `w` (119); a window match on `error`, `fail` or `warn` breaks with the
corresponding level, otherwise the level stays `info`. -/
def journalLevelLoop (msg : List Char) : List Char → List Char
  | [] => "info".toList
  | c :: rest =>
    let lc := c.toNat ||| 32
    if lc = 101 then
      if hasWindowCI ("error".toList) msg then "error".toList
      else journalLevelLoop msg rest
    else if lc = 102 then
      if hasWindowCI ("fail".toList) msg then "error".toList
      else journalLevelLoop msg rest
    else if lc = 119 then
      if hasWindowCI ("warn".toList) msg then "warn".toList
      else journalLevelLoop msg rest
    else journalLevelLoop msg rest

/-- `journalctl.rs::parse_line`: a fixed 15-byte timestamp at the start of
the line, the space-terminated host token starting at offset 16, a service
token scanned up to `:` or `[` (bound but unused in the constructed
entry), then the remaining message.  Lines shorter than 16 bytes are
rejected; the service field of the entry is the constant `journalctl`. -/
def journalParseLine (line : List Char) : Option LogEntry :=
  if line.length < 16 then none
  else
    let timestamp := slice line 0 15
    let hostEnd := findFrom (fun c => c == ' ') line 16
    let hostname := slice line 16 hostEnd
    let svcEnd := findFrom (fun c => c == ':' || c == '[') line (hostEnd + 1)
    let message := if svcEnd + 1 < line.length then line.drop (svcEnd + 1) else []
    some { timestamp := some timestamp
           host := some hostname
           service := some ("journalctl".toList)
           level := some (journalLevelLoop message message)
           message := some message }

/-- `journalctl.rs::parse_journal` (single-threaded path), with
`MIN_LINE_LEN = 20`. -/
def parse_journal (input : List Char) : List LogEntry :=
  parseChunk 20 journalParseLine input

/-! ## python_web parser (`src/parsers/python_web.rs`) -/

/-- `python_web.rs::parse_line`: the first space-delimited token is the
level name, the second the timestamp; a comma-microseconds token is
skipped only when the byte directly after the timestamp token is a comma;
the next token becomes the module (stored as `host`), the rest the
message.  Always returns an entry. -/
def pythonParseLine (line : List Char) : Option LogEntry :=
  let len := line.length
  let lvlEnd := findFrom (fun c => c == ' ') line 0
  let levelStr := slice line 0 lvlEnd
  let i1 := lvlEnd + 1
  let tsEnd := findFrom (fun c => c == ' ') line i1
  let timestamp := slice line i1 tsEnd
  let i2 := tsEnd + 1
  let i3 := if i2 < len ∧ line.get? i2 = some ',' then
      findFrom (fun c => c == ' ') line i2 + 1
    else i2
  let modEnd := findFrom (fun c => c == ' ') line i3
  let module := slice line i3 modEnd
  let i4 := modEnd + 1
  let message := if i4 < len then line.drop i4 else []
  let levelStatic :=
    if lowerAsciiAll levelStr = "error".toList then "error".toList
    else if lowerAsciiAll levelStr = "warn".toList
        ∨ lowerAsciiAll levelStr = "warning".toList then "warn".toList
    else "info".toList
  some { timestamp := some timestamp
         host := some module
         service := some ("python_web".toList)
         level := some levelStatic
         message := some message }

/-- `python_web.rs::parse_python_logs` (single-threaded path), with
`MIN_LINE_LEN = 20`. -/
def parse_python_logs (input : List Char) : List LogEntry :=
  parseChunk 20 pythonParseLine input

/-! ## nginx parser (`src/parsers/nginx.rs`) -/

/-- The field-scanning loop of `nginx.rs::parse_line_to_logentry`
(lines 120-134): a single pass recording the end of the leading IP token,
the bracketed timestamp bounds, and the quoted request bounds, breaking at
the closing request quote.  Guards are tried in source order. -/
def nginxScanLoop : List Char → Nat → Option Nat → Option Nat → Option Nat →
    Option Nat → Option Nat →
    Option Nat × Option Nat × Option Nat × Option Nat × Option Nat
  | [], _, ipEnd, tsS, tsE, rqS, rqE => (ipEnd, tsS, tsE, rqS, rqE)
  | c :: rest, i, ipEnd, tsS, tsE, rqS, rqE =>
    if c = ' ' ∧ ipEnd = none then
      nginxScanLoop rest (i + 1) (some i) tsS tsE rqS rqE
    else if c = '[' ∧ tsS = none then
      nginxScanLoop rest (i + 1) ipEnd (some (i + 1)) tsE rqS rqE
    else if c = ']' ∧ tsS ≠ none ∧ tsE = none then
      nginxScanLoop rest (i + 1) ipEnd tsS (some i) rqS rqE
    else if c = '"' ∧ tsE ≠ none ∧ rqS = none then
      nginxScanLoop rest (i + 1) ipEnd tsS tsE (some (i + 1)) rqE
    else if c = '"' ∧ rqS ≠ none ∧ rqE = none then
      (ipEnd, tsS, tsE, rqS, some i)
    else nginxScanLoop rest (i + 1) ipEnd tsS tsE rqS rqE

/-- `nginx.rs::fast_parse_status`: exactly three bytes, each a decimal
digit (the `wrapping_sub(b'0')` trick followed by the `> 9` test rejects
precisely the non-digit bytes). -/
def fast_parse_status : List Char → Option Nat
  | [a, b, c] =>
    if '0' ≤ a && a ≤ '9' && '0' ≤ b && b ≤ '9' && '0' ≤ c && c ≤ '9' then
      some ((a.toNat - 48) * 100 + (b.toNat - 48) * 10 + (c.toNat - 48))
    else none
  | _ => none

/-- `nginx.rs::parse_line_to_logentry` with the service tag as a
parameter: the repository's `apache` module (declared in
`parsers/mod.rs`) shares this shape per the specification. -/
def nginxParseLineWith (service : List Char) (line : List Char) : Option LogEntry :=
  match nginxScanLoop line 0 none none none none none with
  | (some ipEnd, some tsS, some tsE, some rqS, some rqE) =>
    let ip := line.take ipEnd
    let timestamp := slice line tsS tsE
    let request := slice line rqS rqE
    let statusStart := findFrom (fun c => !(c == ' ')) line (rqE + 1)
    if statusStart + 3 > line.length then none
    else
      let status := slice line statusStart (statusStart + 3)
      match fast_parse_status status with
      | none => none
      | some statusNum =>
        let levelStatic :=
          if 400 ≤ statusNum ∧ statusNum < 500 then "warn".toList
          else if 500 ≤ statusNum then "error".toList
          else "info".toList
        let methodPath :=
          match request.findIdx? (fun c => c == ' ') with
          | some spaceIdx =>
            let rest := request.drop (spaceIdx + 1)
            (request.take spaceIdx,
             rest.take (List.findIdx (fun c => c == ' ') rest))
          | none => (request, [])
        some { timestamp := some timestamp
               host := some ip
               service := some service
               level := some levelStatic
               message := some (methodPath.1 ++ [' '] ++ methodPath.2
                 ++ " -> ".toList ++ status) }
  | _ => none

/-- `nginx.rs::parse_line_to_logentry`, service tag `nginx`. -/
def nginxParseLine (line : List Char) : Option LogEntry :=
  nginxParseLineWith ("nginx".toList) line

/-- `nginx.rs::parse_nginx` (single-threaded path), `MIN_LINE_LEN = 20`. -/
def parse_nginx (input : List Char) : List LogEntry :=
  parseChunk 20 nginxParseLine input

/-- Modelled from the spec: `src/parsers/apache.rs` is declared in
`parsers/mod.rs` but its source file is not under `src/`; §4.3 of the
specification describes it as the same family shape as nginx with the
constant service tag `apache` and status-code-derived level. -/
def parse_apache (input : List Char) : List LogEntry :=
  parseChunk 20 (nginxParseLineWith ("apache".toList)) input

/-! ## Dispatch (`src/parsers/mod.rs`) and the main pipeline
(`src/main.rs`) -/

/-- `parsers/mod.rs::parse`: dispatch on the format name; an unrecognized
name yields `Err(anyhow!("Unknown parser: ..."))`. -/
def parsersParse (parser : String) (input : List Char) :
    Except String (List LogEntry) :=
  if parser = "syslog" then .ok (parse_syslog input)
  else if parser = "nginx" then .ok (parse_nginx input)
  else if parser = "apache" then .ok (parse_apache input)
  else if parser = "journalctl" then .ok (parse_journal input)
  else if parser = "python_web" then .ok (parse_python_logs input)
  else .error ("Unknown parser: " ++ parser)

/-- `normalizer.rs::normalize`: identity pass-through (the timestamp is
re-wrapped unchanged). -/
def normalize (entries : List LogEntry) : List LogEntry :=
  entries.map fun e =>
    match e.timestamp with
    | some ts => { e with timestamp := some ts }
    | none => e

/-- The per-batch body of the parallel loop in `main.rs` (lines 73-85):
parse the batch with the configured preset, normalize on success, and
substitute an empty entry list when the parser dispatch errors. -/
def mainProcessBatch (preset : String) (batch : List Char) : List LogEntry :=
  match parsersParse preset batch with
  | .ok parsed => normalize parsed
  | .error _ => []

/-- The parallel parse loop of `main.rs`: every batch result is sent to
the writer channel, and the entry counts are summed into
`total_entries`.  Returns the sequence of sent batch results together
with that sum. -/
def mainRunBatches (preset : String) (batches : List (List Char)) :
    List (List LogEntry) × Nat :=
  let sent := batches.map (mainProcessBatch preset)
  (sent, (sent.map List.length).sum)

/-- Model of Rust `slice::chunks`: split into consecutive sub-lists of
`n` elements, the last possibly shorter.  (`chunks(0)` panics in Rust;
here `n = 0` degenerates to singleton chunks and is never used.) -/
def chunksOf (n : Nat) : List α → List (List α)
  | [] => []
  | x :: xs => (x :: xs.take (n - 1)) :: chunksOf n (xs.drop (n - 1))
termination_by l => l.length
decreasing_by
  simp only [List.length_cons, List.length_drop]
  exact Nat.lt_succ_of_le (Nat.sub_le _ _)

/-- The batch partitioner of `main.rs` (lines 50-57): group the newline
offsets into `batch_size`-element chunks and map each chunk to the
inclusive byte range from its first offset (default 0 when the chunk is
empty) to its last offset (default `mmap_len - 1`). -/
def mainBatches (line_positions : List Nat) (batch_size : Nat)
    (mmap_len : Nat) : List (Nat × Nat) :=
  (chunksOf batch_size line_positions).map fun chunk =>
    (chunk.head?.getD 0, chunk.getLast?.getD (mmap_len - 1))

/-- The line indexer of `main.rs` line 46 (`memchr_iter(b'\n', &mmap)`),
scanning from index `i`: the ascending offsets of every newline byte. -/
def nlPositionsFrom (i : Nat) : List Char → List Nat
  | [] => []
  | c :: cs =>
    if c = '\n' then i :: nlPositionsFrom (i + 1) cs
    else nlPositionsFrom (i + 1) cs

/-- `line_positions` of `main.rs`. -/
def line_positions (buf : List Char) : List Nat := nlPositionsFrom 0 buf

/-- `total_lines` of `main.rs` line 47: the number of newline offsets. -/
def total_lines (buf : List Char) : Nat := (line_positions buf).length

/-- Formalisation of the claim wording for C3: the count of
newline-delimited lines where the content after the last newline (or a
file with no newline at all) counts as one extra line. -/
def specLineCount (buf : List Char) : Nat :=
  buf.count '\n' + (if buf ≠ [] ∧ buf.getLast? ≠ some '\n' then 1 else 0)

/-! ## Streaming writer, single-JSON-document framing (`src/output.rs`)

The `JsonFile` arm of `Writer::write_batch` and `Writer::finish` emit a
fixed framing around entries serialized by the external `serde_json`
crate.  Each serialized entry is a self-contained JSON value, so the
framing stream is modelled as a token list where `entry` stands for one
serialized entry. -/

/-- Tokens emitted by the single-JSON-document writer. -/
inductive JsonTok where
  | bracketOpen
  | comma
  | entry
  | bracketClose
deriving DecidableEq, Repr

/-- The entry loop of the `JsonFile` arm (lines 31-37 of `output.rs`):
for the `i`-th entry of the batch a separating comma is written first
whenever `i > 0`. -/
def jsonEntrySeq (n : Nat) : List JsonTok :=
  (List.range n).flatMap fun i =>
    (if 0 < i then [JsonTok.comma] else []) ++ [JsonTok.entry]

/-- The `JsonFile` arm of `Writer::write_batch` (lines 23-37): emit `[`
on the first call and `,` on every later call, then the batch's entries
separated by commas; the `is_first` flag is false afterwards. -/
def write_batch_json (is_first : Bool) (n : Nat) : List JsonTok × Bool :=
  ((if is_first then [JsonTok.bracketOpen] else [JsonTok.comma])
    ++ jsonEntrySeq n, false)

/-- The writer thread's loop over received batches (`main.rs` lines
64-69): `write_batch` once per batch, threading the `is_first` flag. -/
def writeBatchesJson : Bool → List Nat → List JsonTok
  | _, [] => []
  | isF, n :: rest =>
    (write_batch_json isF n).1 ++ writeBatchesJson (write_batch_json isF n).2 rest

/-- A whole run of the single-JSON-document writer: `create_writer`
initializes `is_first := true`, every batch is written, and `finish`
(lines 87-89 of `output.rs`) appends the closing `]`. -/
def runJsonWriter (batches : List Nat) : List JsonTok :=
  writeBatchesJson true batches ++ [JsonTok.bracketClose]

/-- Formalisation of the claim wording for C5, tail part: after an
opening bracket and a first entry, a valid JSON array continues with
comma-separated entries and a closing bracket; returns the number of
remaining elements. -/
def arrayTail : List JsonTok → Option Nat
  | [JsonTok.bracketClose] => some 0
  | JsonTok.comma :: JsonTok.entry :: rest => (arrayTail rest).map (· + 1)
  | _ => none

/-- Formalisation of the claim wording for C5: the token stream is a
syntactically valid JSON array, returning its element count (`none` when
it is not a valid array). -/
def arrayElemCount : List JsonTok → Option Nat
  | [JsonTok.bracketOpen, JsonTok.bracketClose] => some 0
  | JsonTok.bracketOpen :: JsonTok.entry :: rest => (arrayTail rest).map (· + 1)
  | _ => none

/-- Helper for reasoning about the writer stream: `k` copies of a comma
followed by an entry. -/
def commaEntryRep : Nat → List JsonTok
  | 0 => []
  | k + 1 => JsonTok.comma :: JsonTok.entry :: commaEntryRep k

/-! ## CSV/TSV field escaping (`src/output.rs` lines 156-169) -/

/-- Model of Rust `str::replace` with a single-character pattern: every
occurrence of `c` is replaced by `rep`. -/
def replaceChar (c : Char) (rep : List Char) : List Char → List Char
  | [] => []
  | x :: xs => (if x = c then rep else [x]) ++ replaceChar c rep xs

/-- `output.rs::escape_csv_field`: when the field contains a comma, a
double quote or a newline, wrap it in double quotes after doubling every
internal double quote; otherwise return it unchanged. -/
def escape_csv_field (field : List Char) : List Char :=
  if field.contains ',' || field.contains '"' || field.contains '\n' then
    '"' :: replaceChar '"' ['"', '"'] field ++ ['"']
  else field

/-- `output.rs::escape_tsv_field`: replace tabs, then newlines, then
carriage returns, each by a single space. -/
def escape_tsv_field (field : List Char) : List Char :=
  replaceChar '\r' [' '] (replaceChar '\n' [' '] (replaceChar '\t' [' '] field))

/-- Formalisation of the claim wording for C9, CSV part: wrap in double
quotes with each internal double quote doubled exactly when the field
contains a comma, a double quote, or a newline; leave it unchanged
otherwise. -/
def csvEscapeSpec (field : List Char) : List Char :=
  if field.contains ',' || field.contains '"' || field.contains '\n' then
    ['"'] ++ (field.flatMap fun c => if c = '"' then ['"', '"'] else [c]) ++ ['"']
  else field

/-- Formalisation of the claim wording for C9, TSV part: every tab,
newline, and carriage-return byte is replaced by a single space. -/
def tsvEscapeSpec (field : List Char) : List Char :=
  field.map fun c => if c = '\t' || c = '\n' || c = '\r' then ' ' else c

/-- Formalisation of the claim wording for C8's amendment: level `error`
when the message contains an `e`/`E` byte and contains `error` or `fail`
case-insensitively; otherwise `warn` when it contains `warn`
case-insensitively; otherwise `info`. -/
def syslogLevelSpecAmended (msg : List Char) : List Char :=
  if (msg.any fun c => c == 'E' || c == 'e')
      && (containsSub ("error".toList) (lowerAll msg)
        || containsSub ("fail".toList) (lowerAll msg)) then "error".toList
  else if (msg.any fun c => c == 'W' || c == 'w')
      && containsSub ("warn".toList) (lowerAll msg) then "warn".toList
  else "info".toList

/-- The entry the python_web parser produces for the sample line
`ERROR 2025-08-31 22:52:03,890 views.api Exception occurred`, used as a
concrete evaluation input. -/
def samplePythonEntry : LogEntry :=
  { timestamp := some ("2025-08-31".toList)
    host := some ("22:52:03,890".toList)
    service := some ("python_web".toList)
    level := some ("error".toList)
    message := some ("views.api Exception occurred".toList) }

/-! ## Helper lemmas -/

theorem replaceChar_eq_flatMap (c : Char) (rep : List Char) (l : List Char) :
    replaceChar c rep l = l.flatMap fun x => if x = c then rep else [x] := by
  induction l with
  | nil => rfl
  | cons x xs ih => simp [replaceChar, ih]

theorem replaceChar_append (c : Char) (rep a b : List Char) :
    replaceChar c rep (a ++ b) = replaceChar c rep a ++ replaceChar c rep b := by
  induction a with
  | nil => rfl
  | cons x xs ih => simp [replaceChar, ih]

theorem escape_tsv_eq (field : List Char) :
    escape_tsv_field field = tsvEscapeSpec field := by
  induction field with
  | nil => rfl
  | cons x xs ih =>
    have h : escape_tsv_field (x :: xs) =
        replaceChar '\r' [' '] (replaceChar '\n' [' ']
          (if x = '\t' then [' '] else [x])) ++ escape_tsv_field xs := by
      simp [escape_tsv_field, replaceChar, replaceChar_append]
    rw [h, ih]
    by_cases h1 : x = '\t'
    · subst h1; simp [replaceChar, tsvEscapeSpec]
    · by_cases h2 : x = '\n'
      · subst h2; simp [replaceChar, tsvEscapeSpec]
      · by_cases h3 : x = '\r'
        · subst h3; simp [replaceChar, tsvEscapeSpec, h1]
        · simp [replaceChar, tsvEscapeSpec, h1, h2, h3]

theorem length_nlPositionsFrom (l : List Char) :
    ∀ i, (nlPositionsFrom i l).length = l.count '\n' := by
  induction l with
  | nil => intro i; simp [nlPositionsFrom]
  | cons c cs ih =>
    intro i
    by_cases hc : c = '\n'
    · subst hc; simp [nlPositionsFrom, ih, List.count_cons]
    · simp [nlPositionsFrom, hc, ih, List.count_cons]

/-! ## Claim theorems -/

/-- C9: for every field string, the CSV escaping wraps the field in double
quotes with each internal double quote doubled exactly when the field
contains a comma, a double quote, or a newline (and leaves it unchanged
otherwise), and the TSV escaping replaces every tab, newline, and
carriage-return byte with a single space. -/
theorem c9_field_escaping (field : List Char) :
    escape_csv_field field = csvEscapeSpec field ∧
    escape_tsv_field field = tsvEscapeSpec field := by
  refine ⟨?_, escape_tsv_eq field⟩
  simp [escape_csv_field, csvEscapeSpec, replaceChar_eq_flatMap]

/-- C3, counterexample: a file consisting of `abc` with no newline has one
newline-delimited line by the claim's counting, but the reported
`total_lines` is 0. -/
theorem c3_counterexample :
    total_lines ("abc".toList) = 0 ∧ specLineCount ("abc".toList) = 1 := by
  constructor <;> decide

/-- C3, amended: `total_lines` counts exactly the newline bytes, so it
equals the claim's newline-delimited line count precisely when the file is
empty or ends with a newline; a trailing unterminated line is not
counted. -/
theorem c3_total_lines_amended (buf : List Char) :
    total_lines buf = specLineCount buf ↔
      (buf = [] ∨ buf.getLast? = some '\n') := by
  have hlen : total_lines buf = buf.count '\n' := by
    simp [total_lines, line_positions, length_nlPositionsFrom]
  by_cases h : buf = [] ∨ buf.getLast? = some '\n'
  · have h2 : ¬(buf ≠ [] ∧ buf.getLast? ≠ some '\n') := by tauto
    simp [specLineCount, h2, hlen, h]
  · have h2 : buf ≠ [] ∧ buf.getLast? ≠ some '\n' := by tauto
    simp [specLineCount, h2, hlen, h]

/-- C1: for the file `abc\n` (newline offsets `[3]`, length 4) with batch
size 1, the single produced batch is the byte range `[3, 3]`: its start
byte is the offset of the first newline, not 0, so the first line's
content `abc` is not part of any batch. -/
theorem c1_first_batch_not_at_zero :
    line_positions ("abc\n".toList) = [3] ∧
    mainBatches [3] 1 4 = [(3, 3)] ∧
    (mainBatches [3] 1 4).head? ≠ some (0, 3) := by
  refine ⟨by decide, ?_, ?_⟩
  · simp [mainBatches, chunksOf]
  · simp [mainBatches, chunksOf]

/-- C6: for the file `a\nb` (newline offsets `[1]`, length 3) with a batch
size exceeding the line count, exactly one batch is produced, but it is
the byte range `[1, 1]` rather than the whole buffer `[0, 2]`: neither the
first line's content nor the trailing unterminated line is covered. -/
theorem c6_single_batch_not_whole_buffer :
    line_positions ("a\nb".toList) = [1] ∧
    mainBatches [1] 1000000 3 = [(1, 1)] ∧
    mainBatches [1] 1000000 3 ≠ [(0, 2)] := by
  have h : mainBatches [1] 1000000 3 = [(1, 1)] := by
    simp [mainBatches, chunksOf]
  exact ⟨by decide, h, by rw [h]; decide⟩

/-- C2: on the python_web line
`WARNING 2025-08-31 22:51:02,567 views.auth Something might be wrong` the
parser produces level `warn` as claimed, but the host field receives the
time token `22:51:02,567` instead of the module name `views.auth`: the
comma-microseconds skip tests the byte at the start of the token after the
date, which is a digit, so it never fires. -/
theorem c2_python_host_gets_time_token :
    parse_python_logs
        ("WARNING 2025-08-31 22:51:02,567 views.auth Something might be wrong".toList) =
      [{ timestamp := some ("2025-08-31".toList)
         host := some ("22:51:02,567".toList)
         service := some ("python_web".toList)
         level := some ("warn".toList)
         message := some ("views.auth Something might be wrong".toList) }] ∧
    some ("22:51:02,567".toList) ≠ some ("views.auth".toList) := by
  constructor <;> decide

/-- C7: the syslog parser on `<34>Jan 12 06:30:00 host app: error disk full`
yields exactly one entry with service `syslog`, host `host`, message
`app: error disk full`, and level `error`. -/
theorem c7_syslog_round_trip :
    parse_syslog ("<34>Jan 12 06:30:00 host app: error disk full".toList) =
      [{ timestamp := some ("Jan 12 06:30:00".toList)
         host := some ("host".toList)
         service := some ("syslog".toList)
         level := some ("error".toList)
         message := some ("app: error disk full".toList) }] := by
  decide

/-- C4, counterexample: with the unrecognized format name `bogus` and two
batches, the dispatch error is raised separately inside each batch task
and mapped to an empty entry list there, so the run does not abort: two
(empty) batch results are still forwarded to the writer. -/
theorem c4_counterexample :
    parsersParse "bogus" ("x\n".toList) = .error "Unknown parser: bogus" ∧
    (mainRunBatches "bogus" [("x\n".toList), ("y\n".toList)]).1.length = 2 := by
  constructor
  · rfl
  · rfl

/-- C4, amended: an unrecognized format name is not a startup error; the
dispatch function returns an error on every per-batch call, which the
parallel loop converts to an empty entry list per batch, so the run
completes, forwards one (empty) result per batch to the writer, and
reports zero total entries. -/
theorem c4_unknown_format_amended (preset : String) (batches : List (List Char))
    (h1 : preset ≠ "syslog") (h2 : preset ≠ "nginx") (h3 : preset ≠ "apache")
    (h4 : preset ≠ "journalctl") (h5 : preset ≠ "python_web") :
    mainRunBatches preset batches =
      (batches.map fun _ => ([] : List LogEntry), 0) := by
  have hp : ∀ b, mainProcessBatch preset b = [] := by
    intro b
    simp [mainProcessBatch, parsersParse, h1, h2, h3, h4, h5]
  have hmap : List.map (mainProcessBatch preset) batches =
      List.map (fun _ => ([] : List LogEntry)) batches :=
    List.map_congr_left fun b _ => hp b
  have hzero : ∀ l : List (List Char),
      (List.map List.length (List.map (fun _ => ([] : List LogEntry)) l)).sum = 0 := by
    intro l
    induction l with
    | nil => rfl
    | cons x xs ih => simp [ih]
  simp only [mainRunBatches, hmap, hzero]

/-- C4, witness for the amended theorem at format name `bogus` with two
concrete batches. -/
theorem c4_witness :
    ("bogus" : String) ≠ "syslog" ∧
    mainRunBatches "bogus" [("x\n".toList), ("y\n".toList)] =
      ([([] : List LogEntry), []], 0) :=
  ⟨by decide, by
    simpa using c4_unknown_format_amended "bogus" [("x\n".toList), ("y\n".toList)]
      (by decide) (by decide) (by decide) (by decide) (by decide)⟩

/-! ### Writer framing lemmas for C5 -/

theorem commaEntryRep_snoc (k : Nat) :
    commaEntryRep k ++ [JsonTok.comma, JsonTok.entry] = commaEntryRep (k + 1) := by
  induction k with
  | zero => rfl
  | succ k ih => simp [commaEntryRep, ih]

theorem commaEntryRep_append (a b : Nat) :
    commaEntryRep a ++ commaEntryRep b = commaEntryRep (a + b) := by
  induction a with
  | zero => simp [commaEntryRep]
  | succ a ih =>
    simp only [commaEntryRep, List.cons_append, ih]
    have h : a + 1 + b = (a + b) + 1 := by omega
    rw [h, commaEntryRep]

theorem jsonEntrySeq_pos (n : Nat) (h : 0 < n) :
    jsonEntrySeq n = JsonTok.entry :: commaEntryRep (n - 1) := by
  induction n with
  | zero => omega
  | succ n ih =>
    rcases Nat.eq_zero_or_pos n with rfl | hn
    · rfl
    · have hstep : jsonEntrySeq (n + 1) =
          jsonEntrySeq n ++ [JsonTok.comma, JsonTok.entry] := by
        simp [jsonEntrySeq, List.range_succ, hn]
      have hsub : n - 1 + 1 = n := by omega
      rw [hstep, ih hn, List.cons_append, commaEntryRep_snoc, hsub]
      rfl

theorem writeBatchesJson_false (rest : List Nat) (h : ∀ b ∈ rest, 0 < b) :
    writeBatchesJson false rest = commaEntryRep rest.sum := by
  induction rest with
  | nil => rfl
  | cons n r ih =>
    have hn : 0 < n := h n (by simp)
    have hr : ∀ b ∈ r, 0 < b := fun b hb => h b (by simp [hb])
    have hsum : (n :: r).sum = n - 1 + r.sum + 1 := by
      simp only [List.sum_cons]; omega
    rw [hsum]
    have hw : writeBatchesJson false (n :: r) =
        JsonTok.comma :: (jsonEntrySeq n ++ writeBatchesJson false r) := by
      simp [writeBatchesJson, write_batch_json]
    rw [hw, jsonEntrySeq_pos n hn, ih hr]
    conv_rhs => rw [commaEntryRep]
    simp [commaEntryRep_append]

theorem arrayTail_rep (k : Nat) :
    arrayTail (commaEntryRep k ++ [JsonTok.bracketClose]) = some k := by
  induction k with
  | zero => rfl
  | succ k ih => simp [commaEntryRep, arrayTail, ih]

/-- C5, counterexample: in the zero-batch case `finish` still writes the
closing bracket but the opening bracket was never written, and a run with
an empty batch between non-empty ones produces a spurious comma; neither
token stream is a valid JSON array. -/
theorem c5_counterexample :
    runJsonWriter [] = [JsonTok.bracketClose] ∧
    arrayElemCount (runJsonWriter []) = none ∧
    arrayElemCount (runJsonWriter [1, 0, 1]) = none := by
  refine ⟨rfl, rfl, rfl⟩

/-- C5, amended: for every run with at least one batch in which every
batch is non-empty, the single-JSON-document writer's token stream is a
syntactically valid JSON array whose element count is the total number of
entries; the zero-batch run and runs containing an empty batch among
others instead produce invalid framing. -/
theorem c5_json_array_amended (batches : List Nat) (hne : batches ≠ [])
    (hpos : ∀ b ∈ batches, 0 < b) :
    arrayElemCount (runJsonWriter batches) = some batches.sum := by
  match batches, hne with
  | b :: rest, _ =>
    have hb : 0 < b := hpos b (by simp)
    have hr : ∀ x ∈ rest, 0 < x := fun x hx => hpos x (by simp [hx])
    have hrun : runJsonWriter (b :: rest) =
        JsonTok.bracketOpen :: JsonTok.entry ::
          (commaEntryRep (b - 1 + rest.sum) ++ [JsonTok.bracketClose]) := by
      have h1 : writeBatchesJson true (b :: rest) =
          JsonTok.bracketOpen :: (jsonEntrySeq b ++ writeBatchesJson false rest) := by
        simp [writeBatchesJson, write_batch_json]
      rw [runJsonWriter, h1, jsonEntrySeq_pos b hb, writeBatchesJson_false rest hr]
      simp [commaEntryRep_append]
    rw [hrun]
    have harr : arrayElemCount (JsonTok.bracketOpen :: JsonTok.entry ::
        (commaEntryRep (b - 1 + rest.sum) ++ [JsonTok.bracketClose])) =
        (arrayTail (commaEntryRep (b - 1 + rest.sum) ++ [JsonTok.bracketClose])).map
          (· + 1) := by
      rfl
    rw [harr, arrayTail_rep]
    have hq : b - 1 + rest.sum + 1 = b + rest.sum := by omega
    simp [hq]

/-- C5, witness for the amended theorem: two batches of 2 and 1 entries
produce a valid 3-element array. -/
theorem c5_witness :
    ([2, 1] : List Nat) ≠ [] ∧
    arrayElemCount (runJsonWriter [2, 1]) = some 3 := by
  refine ⟨by decide, ?_⟩
  have h := c5_json_array_amended [2, 1] (by decide) (by decide)
  simpa using h

theorem eNotW (b : Char) (h : (b == 'E' || b == 'e') = true) :
    (b == 'W' || b == 'w') = false := by
  have hb : b = 'E' ∨ b = 'e' := by simpa using h
  rcases hb with rfl | rfl <;> rfl

theorem syslogLevelLoop_eq (msg : List Char) (rest : List Char) (lvl : List Char) :
    syslogLevelLoop msg rest lvl =
      (if (rest.any fun c => c == 'E' || c == 'e')
            && (containsSub ("error".toList) (lowerAll msg)
              || containsSub ("fail".toList) (lowerAll msg)) then "error".toList
       else if (rest.any fun c => c == 'W' || c == 'w')
            && containsSub ("warn".toList) (lowerAll msg) then "warn".toList
       else lvl) := by
  generalize hE : (containsSub ("error".toList) (lowerAll msg)
      || containsSub ("fail".toList) (lowerAll msg)) = errB
  generalize hW : containsSub ("warn".toList) (lowerAll msg) = warnB
  induction rest generalizing lvl with
  | nil => simp [syslogLevelLoop]
  | cons b r ih =>
    simp only [syslogLevelLoop]
    rw [hE, hW]
    cases hbe : (b == 'E' || b == 'e') with
    | false =>
      cases hbw : (b == 'W' || b == 'w') with
      | false => simp [hbe, hbw, ih]
      | true =>
        cases warnB with
        | false => simp [hbe, hbw, ih]
        | true => simp [hbe, hbw, ih]
    | true =>
      have hbw := eNotW b hbe
      cases errB with
      | false => simp [hbe, hbw, ih]
      | true => simp [hbe, hbw]

theorem syslogDetectLevel_eq_spec (msg : List Char) :
    syslogDetectLevel msg = syslogLevelSpecAmended msg := by
  rw [syslogDetectLevel, syslogLevelLoop_eq, syslogLevelSpecAmended]

/-- C8, counterexample: the syslog line
`Jan 12 06:30:00 host app: fail` has the message `fail`, which contains
`fail` case-insensitively, yet the produced level is `info` rather than
`error`: the error/fail check only runs when the message contains an
`e`/`E` byte and `fail` has none. -/
theorem c8_counterexample :
    containsSub ("fail".toList) (lowerAll ("fail".toList)) = true ∧
    parse_syslog ("Jan 12 06:30:00 host app: fail".toList) =
      [{ timestamp := some ("Jan 12 06:30:00".toList)
         host := some ("host".toList)
         service := some ("syslog".toList)
         level := some ("info".toList)
         message := some ("app: fail".toList) }] := by
  constructor <;> decide

/-- C8, amended: for every successfully field-parsed syslog line, the
level is `error` exactly when the message contains an `e`/`E` byte and
contains `error` or `fail` case-insensitively; otherwise `warn` when the
message contains `warn` case-insensitively; otherwise `info`.  A message
containing `fail` but no `e`/`E` byte therefore yields `info`, not
`error`. -/
theorem c8_syslog_level_amended (line ts host app msg : List Char)
    (h : syslogFields line = some (ts, host, app, msg)) :
    (syslogParseLine line).map LogEntry.level =
      some (some (syslogLevelSpecAmended msg)) := by
  simp [syslogParseLine, h, syslogDetectLevel_eq_spec]

/-- C8, witness for the amended theorem on a concrete line whose message
is `warn low`. -/
theorem c8_witness :
    syslogFields ("Jan 12 06:30:00 host app: warn low".toList) =
      some ("Jan 12 06:30:00".toList, "host".toList, "app".toList,
        "warn low".toList) ∧
    (syslogParseLine ("Jan 12 06:30:00 host app: warn low".toList)).map
        LogEntry.level =
      some (some (syslogLevelSpecAmended ("warn low".toList))) :=
  ⟨by decide,
    c8_syslog_level_amended ("Jan 12 06:30:00 host app: warn low".toList)
      ("Jan 12 06:30:00".toList) ("host".toList) ("app".toList)
      ("warn low".toList) (by decide)⟩

theorem fieldsSome_of_syslog {line : List Char} {e : LogEntry}
    (h : syslogParseLine line = some e) :
    e.timestamp.isSome ∧ e.host.isSome ∧ e.service.isSome ∧
      e.level.isSome ∧ e.message.isSome := by
  rw [syslogParseLine, Option.map_eq_some'] at h
  obtain ⟨f, _, rfl⟩ := h
  simp

theorem fieldsSome_of_python {line : List Char} {e : LogEntry}
    (h : pythonParseLine line = some e) :
    e.timestamp.isSome ∧ e.host.isSome ∧ e.service.isSome ∧
      e.level.isSome ∧ e.message.isSome := by
  rw [pythonParseLine] at h
  obtain rfl := Option.some.inj h.symm
  simp

theorem fieldsSome_of_journal {line : List Char} {e : LogEntry}
    (h : journalParseLine line = some e) :
    e.timestamp.isSome ∧ e.host.isSome ∧ e.service.isSome ∧
      e.level.isSome ∧ e.message.isSome := by
  rw [journalParseLine] at h
  split at h
  · exact absurd h (by simp)
  · obtain rfl := Option.some.inj h
    simp

theorem fieldsSome_of_nginx {svc line : List Char} {e : LogEntry}
    (h : nginxParseLineWith svc line = some e) :
    e.timestamp.isSome ∧ e.host.isSome ∧ e.service.isSome ∧
      e.level.isSome ∧ e.message.isSome := by
  rw [nginxParseLineWith] at h
  split at h
  · dsimp only at h
    split at h
    · exact absurd h (by simp)
    · split at h
      · exact absurd h (by simp)
      · obtain rfl := Option.some.inj h
        simp
  · exact absurd h (by simp)

theorem exists_parseLine_of_mem_parseChunk {minLen : Nat}
    {pl : List Char → Option LogEntry} {input : List Char} {e : LogEntry}
    (h : e ∈ parseChunk minLen pl input) :
    ∃ line, pl line = some e := by
  rw [parseChunk, List.mem_filterMap] at h
  obtain ⟨line, _, hsome⟩ := h
  by_cases hl : minLen ≤ line.length
  · exact ⟨line, by simpa [hl] using hsome⟩
  · simp [hl] at hsome

/-- C10: every entry produced by any of the four parse functions present
in the source, on any input, has all five `LogEntry` fields set to
`some`; no produced entry has a `none` field. -/
theorem c10_entries_all_fields_some (input : List Char) (e : LogEntry)
    (h : e ∈ parse_syslog input ∨ e ∈ parse_nginx input ∨
      e ∈ parse_journal input ∨ e ∈ parse_python_logs input) :
    e.timestamp.isSome ∧ e.host.isSome ∧ e.service.isSome ∧
      e.level.isSome ∧ e.message.isSome := by
  rcases h with h | h | h | h
  · obtain ⟨line, hl⟩ := exists_parseLine_of_mem_parseChunk h
    exact fieldsSome_of_syslog hl
  · obtain ⟨line, hl⟩ := exists_parseLine_of_mem_parseChunk h
    exact fieldsSome_of_nginx (by simpa [nginxParseLine] using hl)
  · obtain ⟨line, hl⟩ := exists_parseLine_of_mem_parseChunk h
    exact fieldsSome_of_journal hl
  · obtain ⟨line, hl⟩ := exists_parseLine_of_mem_parseChunk h
    exact fieldsSome_of_python hl

/-- C10, witness: the entry the python_web parser produces for a concrete
sample line has all five fields set. -/
theorem c10_witness :
    samplePythonEntry.timestamp.isSome ∧ samplePythonEntry.host.isSome ∧
      samplePythonEntry.service.isSome ∧ samplePythonEntry.level.isSome ∧
      samplePythonEntry.message.isSome :=
  c10_entries_all_fields_some
    ("ERROR 2025-08-31 22:52:03,890 views.api Exception occurred".toList) _
    (Or.inr (Or.inr (Or.inr (by decide))))

end LogNorm
